import Mathlib

/-!
Shallow embedding of the VSL front end (lexer + recursive-descent parser)
from `src/VSLLexer.cpp`, together with theorems settling the claims about
its specification.

Modelling conventions:
* characters are Lean `Char`; the C input stream (`getchar`) is a
  `List Char`, with end-of-input (`EOF`) modelled as `Option.none` for the
  one-character pushback `lastChar`;
* the C `double` values produced by `strtod` are modelled as exact
  rationals (`ℚ`);
* the mutable globals (`CurTok`, `identifierStr`, `numVal`,
  `BinopPrecedence`) become explicit state threaded through the functions;
* every potentially diverging loop or recursion takes a fuel parameter:
  an outer `Option.none` result means the fuel ran out (the source loops
  or recurses without returning); parse failure (`LogError` returning
  `nullptr`) is the *inner* `Option.none`.
-/

namespace VSL

/-- The token kind, mirroring `enum token` in the source.  `tok_identifier`
and `tok_number` carry the text that the source keeps in the globals
`identifierStr` / `numStr`; `charTok` is the "other characters" case where
`getToken` returns the raw character itself. -/
inductive Tok where
  | tok_eof
  | tok_func
  | tok_return
  | tok_identifier (str : String)
  | tok_number (str : String)
  | tok_if
  | tok_then
  | tok_else
  | tok_fi
  | tok_do
  | tok_while
  | tok_done
  | tok_continue
  | tok_print
  | tok_var
  | tok_assign
  | charTok (c : Char)
deriving DecidableEq

/-- The `int` value of a token as the source sees it (`enum token` codes
are negative, a raw character is its own code). -/
def tokCode : Tok → Int
  | .tok_eof => -1
  | .tok_func => -2
  | .tok_return => -3
  | .tok_identifier _ => -4
  | .tok_number _ => -5
  | .tok_if => -6
  | .tok_then => -7
  | .tok_else => -8
  | .tok_fi => -9
  | .tok_do => -12
  | .tok_while => -13
  | .tok_done => -14
  | .tok_continue => -15
  | .tok_print => -16
  | .tok_var => -17
  | .tok_assign => -18
  | .charTok c => Int.ofNat c.toNat

/-! ### Character classification (the C `<cctype>` functions, ASCII) -/

def isSpaceC (c : Char) : Bool :=
  c.toNat == 32 || c.toNat == 9 || c.toNat == 10 || c.toNat == 11 ||
  c.toNat == 12 || c.toNat == 13

def isDigitC (c : Char) : Bool :=
  decide (48 ≤ c.toNat) && decide (c.toNat ≤ 57)

def isAlphaC (c : Char) : Bool :=
  (decide (65 ≤ c.toNat) && decide (c.toNat ≤ 90)) ||
  (decide (97 ≤ c.toNat) && decide (c.toNat ≤ 122))

def isAlnumC (c : Char) : Bool := isAlphaC c || isDigitC c

/-- A character that continues a numeric literal run: `isdigit(c) || c == '.'`. -/
def isNumC (c : Char) : Bool := isDigitC c || c == '.'

/-! ### The value of a numeric literal

The source calls C `strtod` on a string consisting of digits and `'.'`
characters.  `strtodQ` models `strtod` on such inputs: it converts the
longest prefix that matches `digits [ '.' digits ]` (best effort), and
yields `0` when no conversion can be performed — exactly `strtod`'s
behaviour, with the real-number value kept exact in `ℚ` instead of being
rounded to binary64. -/

def digitsVal (l : List Char) : ℚ :=
  l.foldl (fun a c => a * 10 + ((c.toNat - 48 : Nat) : ℚ)) 0

def strtodQ (s : String) : ℚ :=
  let cs := s.toList
  let ipart := cs.takeWhile isDigitC
  let rest := cs.dropWhile isDigitC
  match rest with
  | '.' :: rest2 =>
      let fpart := rest2.takeWhile isDigitC
      if ipart = [] ∧ fpart = [] then 0
      else digitsVal ipart + digitsVal fpart / (10 ^ fpart.length)
  | _ => digitsVal ipart

/-! ### Lexer state and `getToken`

The lexer's only persistent state in the source is the `static int
lastChar` pushback inside `getToken` plus the position in the input
stream; `LexState` is exactly that pair.  `lastChar = none` models
`lastChar == EOF`. -/

structure LexState where
  lastChar : Option Char
  input : List Char
deriving DecidableEq

/-- `getchar()` on the modelled input stream. -/
def getchar : List Char → Option Char × List Char
  | [] => (none, [])
  | c :: r => (some c, r)

/-- The body of the `while (isspace(lastChar)) lastChar = getchar();`
loop once it is known to run: read characters until a non-whitespace one
(which becomes the new pushback) or end of input.  It terminates because
the input is finite and `isspace(EOF)` is false. -/
def skipSpacesAux : List Char → Option Char × List Char
  | [] => (none, [])
  | c :: r => if isSpaceC c then skipSpacesAux r else (some c, r)

/-- The complete whitespace-skipping loop, including the case where the
current pushback already fails the `isspace` test and nothing is read. -/
def skipSpaces (lc : Option Char) (inp : List Char) : Option Char × List Char :=
  match lc with
  | none => (none, inp)
  | some c => if isSpaceC c then skipSpacesAux inp else (some c, inp)

/-- The accumulation loops `while (pred (lastChar = getchar())) acc += lastChar;`:
returns the accumulated run, the new `lastChar`, and the remaining input. -/
def scanRun (f : Char → Bool) : List Char → List Char × Option Char × List Char
  | [] => ([], none, [])
  | c :: r =>
    if f c then
      let (a, lc, rest) := scanRun f r
      (c :: a, lc, rest)
    else ([], some c, r)

/-- The keyword comparison chain of `getToken`, in source order.  The
`":="` comparison is reproduced from the source even though an identifier
accumulated from alphanumeric characters can never equal `":="`. -/
def keywordOrIdent (str : String) : Tok :=
  if str = "FUNC" then .tok_func
  else if str = "RETURN" then .tok_return
  else if str = "IF" then .tok_if
  else if str = "ELSE" then .tok_else
  else if str = "THEN" then .tok_then
  else if str = "FI" then .tok_fi
  else if str = "DO" then .tok_do
  else if str = "WHILE" then .tok_while
  else if str = "DONE" then .tok_done
  else if str = "CONTINUE" then .tok_continue
  else if str = "PRINT" then .tok_print
  else if str = "VAR" then .tok_var
  else if str = ":=" then .tok_assign
  else .tok_identifier str

/-- `static int getToken()` from the source. -/
def getToken (s : LexState) : Tok × LexState :=
  match skipSpaces s.lastChar s.input with
  | (none, inp) => (.tok_eof, ⟨none, inp⟩)
  | (some c, inp) =>
    if isAlphaC c then
      match scanRun isAlnumC inp with
      | (a, lc, rest) => (keywordOrIdent (String.mk (c :: a)), ⟨lc, rest⟩)
    else if isNumC c then
      match scanRun isNumC inp with
      | (a, lc, rest) => (.tok_number (String.mk (c :: a)), ⟨lc, rest⟩)
    else
      match getchar inp with
      | (lc, rest) => (.charTok c, ⟨lc, rest⟩)

/-- The raw text a token stands for (keywords spell themselves; the
end-of-input token consumes no text). -/
def tokText : Tok → String
  | .tok_eof => ""
  | .tok_func => "FUNC"
  | .tok_return => "RETURN"
  | .tok_identifier s => s
  | .tok_number s => s
  | .tok_if => "IF"
  | .tok_then => "THEN"
  | .tok_else => "ELSE"
  | .tok_fi => "FI"
  | .tok_do => "DO"
  | .tok_while => "WHILE"
  | .tok_done => "DONE"
  | .tok_continue => "CONTINUE"
  | .tok_print => "PRINT"
  | .tok_var => "VAR"
  | .tok_assign => ":="
  | .charTok c => String.mk [c]

/-- The characters the lexer still has to deliver: the pushback character
(if any) followed by the unread input. -/
def pendingOf (s : LexState) : List Char :=
  (match s.lastChar with
   | some c => [c]
   | none => []) ++ s.input

/-! ### AST

The closed variant set of the source.  `baseExpr` models the source's
`llvm::make_unique<ExprAST>(x)` in `ParseIfExpr` / `ParseWhileExpr` /
`ParseReturnExpr`: a bare base-class node built from a possibly-null
sub-expression (the source has no dedicated If/While/Return node
classes). -/
inductive ExprAST where
  | numberExpr (val : ℚ)
  | variableExpr (name : String)
  | binaryExpr (op : Char) (lhs rhs : ExprAST)
  | callExpr (callee : String) (args : List ExprAST)
  | baseExpr (inner : Option ExprAST)

/-- `class PrototypeAST`. -/
structure PrototypeAST where
  name : String
  args : List String
  isOperator : Bool
  precedence : Nat
deriving DecidableEq

/-- `class FunctionAST` (the body is checked non-null before construction
in both `ParseDefinition` and `ParseTopLevelExpr`). -/
structure FunctionAST where
  proto : PrototypeAST
  body : ExprAST

/-! ### Parser state

The parser's mutable globals: the one-token lookahead `CurTok`, the
not-yet-consumed token stream, and the `BinopPrecedence` map (as an
association list; `std::map` iteration order is irrelevant to every
lookup). -/

structure PState where
  curTok : Tok
  toks : List Tok
  binopPrecedence : List (Char × Int)
deriving DecidableEq

/-- `getNextToken()`: pull the next token into `CurTok`.  An exhausted
stream keeps yielding `tok_eof` (the lexer's behaviour at end of input). -/
def advance : PState → PState
  | ⟨_, [], p⟩ => ⟨.tok_eof, [], p⟩
  | ⟨_, t :: r, p⟩ => ⟨t, r, p⟩

/-- Prime the lookahead from a token list, as the driver's initial
`getNextToken()` does. -/
def mkPState (ts : List Tok) (prec : List (Char × Int)) : PState :=
  match ts with
  | [] => ⟨.tok_eof, [], prec⟩
  | t :: r => ⟨t, r, prec⟩

/-- `std::map<char,int>::operator[]`: return the mapped value, default-
inserting `0` when the key is absent. -/
def mapIndex (p : List (Char × Int)) (c : Char) : Int × List (Char × Int) :=
  match p.lookup c with
  | some v => (v, p)
  | none => (0, p ++ [(c, 0)])

/-- `static int GetTokPrecedence()`: `-1` unless `CurTok` is an ASCII
character with a strictly positive registered precedence.  Note that the
`BinopPrecedence[CurTok]` read happens through `operator[]`, so it can
default-insert a zero entry. -/
def GetTokPrecedence (s : PState) : Int × PState :=
  let code := tokCode s.curTok
  if code < 0 ∨ 127 < code then (-1, s)
  else
    match mapIndex s.binopPrecedence (Char.ofNat code.toNat) with
    | (v, p2) => ((if v ≤ 0 then -1 else v), { s with binopPrecedence := p2 })

/-- The `char Op` stored in a `BinaryExprAST` from the `int BinOp = CurTok`
operator token. -/
def binOpChar (t : Tok) : Char := Char.ofNat (tokCode t).toNat

/-- The global `identifierStr` as visible when `CurTok` is the given token. -/
def idStrOf : Tok → String
  | .tok_identifier s => s
  | _ => ""

/-- The global `numVal` as visible when `CurTok` is the given token
(`numVal = strtod(numStr.c_str(), 0)`). -/
def numValOf : Tok → ℚ
  | .tok_number s => strtodQ s
  | _ => 0

/-! ### Non-recursive parser pieces -/

/-- `ParseNumberExpr`: build a `NumberExprAST` from `numVal` and advance.
Never fails. -/
def ParseNumberExpr (s : PState) : Option ExprAST × PState :=
  (some (.numberExpr (numValOf s.curTok)), advance s)

/-- `ParseVarExpr` from the source:
`getNextToken(); return llvm::make_unique<VariableExprAST>(CurTok);` —
it advances once and builds a `VariableExprAST` from the *numeric token
code* of the new `CurTok` (the source passes the `int` where the
constructor expects the identifier string; we render that code as its
decimal string).  It neither consumes the identifier nor looks for `:=`,
and it never fails. -/
def ParseVarExpr (s : PState) : Option ExprAST × PState :=
  let s1 := advance s
  (some (.variableExpr (toString (tokCode s1.curTok))), s1)

/-! ### The recursive parser knot

All mutually recursive parse functions and in-function loops of the
source, as one fuel-indexed family: `parserAt n` provides each function
with recursion depth / loop iteration budget `n`.  `parserAt 0` answers
`none` ("ran out of fuel") everywhere, and each function at level `n + 1`
calls its callees — and its own next loop iteration — at level `n`.
An outer `none` therefore means the source diverges (or fuel was too
small); results of terminating runs are the `some _` values, whose inner
`Option` is the source's `nullptr`-or-node return. -/

structure ParserFns where
  ParsePrimary : PState → Option (Option ExprAST × PState)
  ParseExpression : PState → Option (Option ExprAST × PState)
  ParseBinOpRHS : Int → ExprAST → PState → Option (Option ExprAST × PState)
  ParseParenExpr : PState → Option (Option ExprAST × PState)
  ParseIdentifierExpr : PState → Option (Option ExprAST × PState)
  argsLoop : List ExprAST → PState → Option (Option (List ExprAST) × PState)
  ParseIfExpr : PState → Option (Option ExprAST × PState)
  ifLoopThen : PState → Option PState
  skipToFi : PState → Option PState
  ifLoopElse : PState → Option PState
  ParseWhileExpr : PState → Option (Option ExprAST × PState)
  whileLoopBody : PState → Option PState
  whileSkipDone : PState → Option PState
  ParseReturnExpr : PState → Option (Option ExprAST × PState)
  ParsePrintExpr : PState → Option (Option ExprAST × PState)

/-- The everywhere-out-of-fuel bottom of the fuel hierarchy. -/
def parserBot : ParserFns where
  ParsePrimary := fun _ => none
  ParseExpression := fun _ => none
  ParseBinOpRHS := fun _ _ _ => none
  ParseParenExpr := fun _ => none
  ParseIdentifierExpr := fun _ => none
  argsLoop := fun _ _ => none
  ParseIfExpr := fun _ => none
  ifLoopThen := fun _ => none
  skipToFi := fun _ => none
  ifLoopElse := fun _ => none
  ParseWhileExpr := fun _ => none
  whileLoopBody := fun _ => none
  whileSkipDone := fun _ => none
  ParseReturnExpr := fun _ => none
  ParsePrintExpr := fun _ => none

/-- One level of the recursive knot: each body is the direct transcription
of the corresponding source function, with `p.f` standing for the
recursive calls. -/
def parserStep (p : ParserFns) : ParserFns where
  /- `ParsePrimary`: dispatch on `CurTok`; the default case is
     `LogError("unknown token when expecting an expression")` → null. -/
  ParsePrimary := fun s =>
    match s.curTok with
    | .tok_identifier _ => p.ParseIdentifierExpr s
    | .tok_number _ => some (ParseNumberExpr s)
    | .charTok '(' => p.ParseParenExpr s
    | .tok_if => p.ParseIfExpr s
    | .tok_var => some (ParseVarExpr s)
    | .tok_while => p.ParseWhileExpr s
    | .tok_return => p.ParseReturnExpr s
    | .tok_print => p.ParsePrintExpr s
    | _ => some (none, s)
  /- `ParseExpression`: a primary followed by binop-RHS climbing from
     precedence 0. -/
  ParseExpression := fun s =>
    match p.ParsePrimary s with
    | none => none
    | some (none, s1) => some (none, s1)
    | some (some lhs, s1) => p.ParseBinOpRHS 0 lhs s1
  /- `ParseBinOpRHS(ExprPrec, LHS)`: the precedence-climbing loop. -/
  ParseBinOpRHS := fun exprPrec lhs s =>
    match GetTokPrecedence s with
    | (tokPrec, s1) =>
      if tokPrec < exprPrec then some (some lhs, s1)
      else
        let binOp := s1.curTok
        let s2 := advance s1
        match p.ParsePrimary s2 with
        | none => none
        | some (none, s3) => some (none, s3)
        | some (some rhs, s3) =>
          match GetTokPrecedence s3 with
          | (nextPrec, s4) =>
            if tokPrec < nextPrec then
              match p.ParseBinOpRHS (tokPrec + 1) rhs s4 with
              | none => none
              | some (none, s5) => some (none, s5)
              | some (some rhs2, s5) =>
                p.ParseBinOpRHS exprPrec (.binaryExpr (binOpChar binOp) lhs rhs2) s5
            else
              p.ParseBinOpRHS exprPrec (.binaryExpr (binOpChar binOp) lhs rhs) s4
  /- `ParseParenExpr`: `(` expression `)`. -/
  ParseParenExpr := fun s =>
    let s1 := advance s
    match p.ParseExpression s1 with
    | none => none
    | some (none, s2) => some (none, s2)
    | some (some v, s2) =>
      if s2.curTok = .charTok ')' then some (some v, advance s2)
      else some (none, s2)
  /- `ParseIdentifierExpr`: variable reference or call. -/
  ParseIdentifierExpr := fun s =>
    let idName := idStrOf s.curTok
    let s1 := advance s
    if s1.curTok ≠ .charTok '(' then some (some (.variableExpr idName), s1)
    else
      let s2 := advance s1
      match (if s2.curTok = .charTok ')' then some (some ([] : List ExprAST), s2)
             else p.argsLoop [] s2) with
      | none => none
      | some (none, s3) => some (none, s3)
      | some (some args, s3) => some (some (.callExpr idName args), advance s3)
  /- The argument-list loop of `ParseIdentifierExpr`: expression, then
     `)` ends, `,` continues, anything else is
     `LogError("Expected ')' or ',' in argument list")`. -/
  argsLoop := fun acc s =>
    match p.ParseExpression s with
    | none => none
    | some (none, s1) => some (none, s1)
    | some (some arg, s1) =>
      let acc2 := acc ++ [arg]
      if s1.curTok = .charTok ')' then some (some acc2, s1)
      else if s1.curTok = .charTok ',' then p.argsLoop acc2 (advance s1)
      else some (none, s1)
  /- `ParseIfExpr`: eat `IF`, parse the condition with `ParsePrimary`,
     then run the corresponding scanning loop; the returned node is a bare
     `ExprAST` built from the condition. -/
  ParseIfExpr := fun s =>
    let s1 := advance s
    match p.ParsePrimary s1 with
    | none => none
    | some (some cond, s2) =>
      match p.ifLoopThen s2 with
      | none => none
      | some s3 => some (some (.baseExpr (some cond)), s3)
    | some (none, s2) =>
      match p.ifLoopElse s2 with
      | none => none
      | some s3 => some (some (.baseExpr none), s3)
  /- The `while (1)` loop of `ParseIfExpr` taken when the condition parsed
     non-null: advance; on `ELSE` skip to `FI` and break; otherwise a
     missing `THEN` only prints a diagnostic, a present `THEN` is eaten;
     then a then-branch `ParsePrimary` whose result (even null) is
     discarded, and the loop repeats. -/
  ifLoopThen := fun s =>
    let s1 := advance s
    if s1.curTok = .tok_else then p.skipToFi s1
    else
      let s2 := if s1.curTok = .tok_then then advance s1 else s1
      match p.ParsePrimary s2 with
      | none => none
      | some (_, s3) => p.ifLoopThen s3
  /- `while (CurTok != tok_fi) getNextToken();` -/
  skipToFi := fun s =>
    if s.curTok = .tok_fi then some s else p.skipToFi (advance s)
  /- The `while (1)` loop of `ParseIfExpr` taken when the condition parsed
     null: advance; on `ELSE` advance and run a discarded `ParsePrimary`;
     break on `FI`. -/
  ifLoopElse := fun s =>
    let s1 := advance s
    match (if s1.curTok = .tok_else then
             match p.ParsePrimary (advance s1) with
             | none => none
             | some (_, s2) => some s2
           else some s1) with
    | none => none
    | some s3 => if s3.curTok = .tok_fi then some s3 else p.ifLoopElse s3
  /- `ParseWhileExpr`: same shape as `ParseIfExpr` with the `DO`/`DONE`
     loops. -/
  ParseWhileExpr := fun s =>
    let s1 := advance s
    match p.ParsePrimary s1 with
    | none => none
    | some (some cond, s2) =>
      match p.whileLoopBody s2 with
      | none => none
      | some s3 => some (some (.baseExpr (some cond)), s3)
    | some (none, s2) =>
      match p.whileSkipDone s2 with
      | none => none
      | some s3 => some (some (.baseExpr none), s3)
  /- The body loop of `ParseWhileExpr`: advance; on `DO` advance twice and
     run a discarded `ParsePrimary`; break on `DONE`. -/
  whileLoopBody := fun s =>
    let s1 := advance s
    match (if s1.curTok = .tok_do then
             match p.ParsePrimary (advance (advance s1)) with
             | none => none
             | some (_, s2) => some s2
           else some s1) with
    | none => none
    | some s3 => if s3.curTok = .tok_done then some s3 else p.whileLoopBody s3
  /- `while (1) { getNextToken(); if (CurTok == tok_done) break; }` -/
  whileSkipDone := fun s =>
    let s1 := advance s
    if s1.curTok = .tok_done then some s1 else p.whileSkipDone s1
  /- `ParseReturnExpr`: eat `RETURN`, parse one primary, and wrap the
     (possibly null) result in a bare `ExprAST`; never returns null
     itself. -/
  ParseReturnExpr := fun s =>
    let s1 := advance s
    match p.ParsePrimary s1 with
    | none => none
    | some (r, s2) => some (some (.baseExpr r), s2)
  /- `ParsePrintExpr`: the source immediately re-enters `ParsePrimary`
     without consuming the `PRINT` token. -/
  ParsePrintExpr := fun s => p.ParsePrimary s

/-- The fuel hierarchy. -/
def parserAt : Nat → ParserFns
  | 0 => parserBot
  | n + 1 => parserStep (parserAt n)

/-! Top-level fuel-indexed entry points. -/

def ParsePrimary (n : Nat) (s : PState) : Option (Option ExprAST × PState) :=
  (parserAt n).ParsePrimary s

def ParseExpression (n : Nat) (s : PState) : Option (Option ExprAST × PState) :=
  (parserAt n).ParseExpression s

/-- The `while (getNextToken() == tok_identifier) ArgNames.push_back(identifierStr);`
loop of `ParsePrototype` (its first advance eats the `(`). -/
def protoArgsLoop : Nat → List String → PState → Option (List String × PState)
  | 0, _, _ => none
  | n + 1, acc, s =>
    let s1 := advance s
    match s1.curTok with
    | .tok_identifier id => protoArgsLoop n (acc ++ [id]) s1
    | _ => some (acc, s1)

/-- `ParsePrototype`: a function name, `(`, identifier parameters with no
separators, `)`.  The unary/binary-operator cases of the source are
commented out, so `Kind` is always `0` and the arity check never fires;
the prototype is built with `IsOperator = false` and the (unused) default
`BinaryPrecedence = 30`. -/
def ParsePrototype (n : Nat) (s : PState) : Option (Option PrototypeAST × PState) :=
  match s.curTok with
  | .tok_identifier fnName =>
    let s1 := advance s
    if s1.curTok = .charTok '(' then
      match protoArgsLoop n [] s1 with
      | none => none
      | some (argNames, s2) =>
        if s2.curTok = .charTok ')' then
          some (some ⟨fnName, argNames, false, 30⟩, advance s2)
        else some (none, s2)
    else some (none, s1)
  | _ => some (none, s)

/-- `ParseDefinition`: eat `FUNC`, parse a prototype, then one expression
as the body. -/
def ParseDefinition (n : Nat) (s : PState) : Option (Option FunctionAST × PState) :=
  let s1 := advance s
  match ParsePrototype n s1 with
  | none => none
  | some (none, s2) => some (none, s2)
  | some (some proto, s2) =>
    match ParseExpression n s2 with
    | none => none
    | some (none, s3) => some (none, s3)
    | some (some body, s3) => some (some ⟨proto, body⟩, s3)

/-- `ParseTopLevelExpr`: parse one expression and wrap it in an anonymous
`FunctionAST` with prototype `__anon_expr` and no parameters. -/
def ParseTopLevelExpr (n : Nat) (s : PState) : Option (Option FunctionAST × PState) :=
  match ParseExpression n s with
  | none => none
  | some (none, s1) => some (none, s1)
  | some (some e, s1) => some (some ⟨⟨"__anon_expr", [], false, 0⟩, e⟩, s1)

/-- The precedence table installed by `main()`:
`'=' → 2, '<' → 10, '+' → 20, '-' → 20, '*' → 40`. -/
def BinopPrecedence : List (Char × Int) :=
  [('=', 2), ('<', 10), ('+', 20), ('-', 20), ('*', 40)]

/-! ## Claims -/

/-- Claim C1: binary-operator parsing reproduces standard
precedence-climbing exactly.  With the standard table, for every four
number-literal primaries `a`, `b`, `c`, `d`, the token stream of
`a + b * c - d` parses to `BinaryOp('-', BinaryOp('+', a, BinaryOp('*', b, c)), d)`,
and `a - b - c` associates left, to `BinaryOp('-', BinaryOp('-', a, b), c)`. -/
theorem claim_C1_precedence_climbing (a b c d : String) :
    ParseExpression 20 (mkPState
        [.tok_number a, .charTok '+', .tok_number b, .charTok '*',
         .tok_number c, .charTok '-', .tok_number d] BinopPrecedence)
      = some (some (.binaryExpr '-'
          (.binaryExpr '+' (.numberExpr (strtodQ a))
            (.binaryExpr '*' (.numberExpr (strtodQ b)) (.numberExpr (strtodQ c))))
          (.numberExpr (strtodQ d))),
        ⟨.tok_eof, [], BinopPrecedence⟩)
  ∧ ParseExpression 20 (mkPState
        [.tok_number a, .charTok '-', .tok_number b, .charTok '-', .tok_number c]
        BinopPrecedence)
      = some (some (.binaryExpr '-'
          (.binaryExpr '-' (.numberExpr (strtodQ a)) (.numberExpr (strtodQ b)))
          (.numberExpr (strtodQ c))),
        ⟨.tok_eof, [], BinopPrecedence⟩) :=
  ⟨rfl, rfl⟩

/-- Claim C2: whenever the inner expression parse succeeds (the stream is
syntactically valid), `ParseTopLevelExpr` succeeds and returns exactly one
`FunctionAST` whose prototype is the anonymous `__anon_expr` with an empty
parameter list and whose body is the parsed expression tree. -/
theorem claim_C2_toplevel_wraps (n : Nat) (s : PState) (e : ExprAST) (s1 : PState)
    (h : ParseExpression n s = some (some e, s1)) :
    ParseTopLevelExpr n s = some (some ⟨⟨"__anon_expr", [], false, 0⟩, e⟩, s1) := by
  simp [ParseTopLevelExpr, h]

/-- Witness for C2 at the concrete stream `1`. -/
theorem claim_C2_toplevel_wraps_witness :
    ParseTopLevelExpr 5 (mkPState [.tok_number "1"] BinopPrecedence)
      = some (some ⟨⟨"__anon_expr", [], false, 0⟩, .numberExpr (strtodQ "1")⟩,
          ⟨.tok_eof, [], BinopPrecedence⟩) :=
  claim_C2_toplevel_wraps 5 _ _ _ rfl

/-- Claim C4: `f(1, 2, 3)` parses to a call with arguments `[1, 2, 3]` in
source order, `f()` to a call with no arguments, and `f(1 2)` — where the
separator is neither `,` nor `)` — fails with a parse error (null result)
rather than returning a call node.  (The successful parses also
default-insert zero-precedence entries for `','` and `')'` into the
precedence map; see C8.) -/
theorem claim_C4_call_parsing :
    (ParsePrimary 10 (mkPState
        [.tok_identifier "f", .charTok '(', .tok_number "1", .charTok ',',
         .tok_number "2", .charTok ',', .tok_number "3", .charTok ')']
        BinopPrecedence)
      = some (some (.callExpr "f"
          [.numberExpr (strtodQ "1"), .numberExpr (strtodQ "2"), .numberExpr (strtodQ "3")]),
          ⟨.tok_eof, [], BinopPrecedence ++ [(',', 0), (')', 0)]⟩))
  ∧ strtodQ "1" = 1 ∧ strtodQ "2" = 2 ∧ strtodQ "3" = 3
  ∧ (ParsePrimary 10 (mkPState
        [.tok_identifier "f", .charTok '(', .charTok ')'] BinopPrecedence)
      = some (some (.callExpr "f" []), ⟨.tok_eof, [], BinopPrecedence⟩))
  ∧ (ParsePrimary 10 (mkPState
        [.tok_identifier "f", .charTok '(', .tok_number "1", .tok_number "2", .charTok ')']
        BinopPrecedence)
      = some (none, ⟨.tok_number "2", [.charTok ')'], BinopPrecedence⟩)) := by
  refine ⟨rfl, ?_, ?_, ?_, rfl, rfl⟩ <;>
    norm_num [strtodQ, digitsVal,
      show List.takeWhile isDigitC ['1'] = ['1'] from rfl,
      show List.dropWhile isDigitC ['1'] = [] from rfl,
      show List.takeWhile isDigitC ['2'] = ['2'] from rfl,
      show List.dropWhile isDigitC ['2'] = [] from rfl,
      show List.takeWhile isDigitC ['3'] = ['3'] from rfl,
      show List.dropWhile isDigitC ['3'] = [] from rfl,
      show Char.toNat '1' = 49 from rfl,
      show Char.toNat '2' = 50 from rfl,
      show Char.toNat '3' = 51 from rfl]

/-- Claim C5 (the source cannot do what the claim says): with the current
character `':'` followed by `'='`, `getToken` does *not* return the assign
token — the `":="` string comparison sits inside the alphabetic-identifier
branch, which `':'` never enters.  It returns the single-character token
`':'`, and the next call returns `'='`. -/
theorem claim_C5_assign_lexing :
    getToken ⟨some ':', ['=']⟩ = (.charTok ':', ⟨some '=', []⟩)
  ∧ getToken ⟨some '=', []⟩ = (.charTok '=', ⟨none, []⟩)
  ∧ Tok.charTok ':' ≠ .tok_assign :=
  ⟨rfl, rfl, by decide⟩

/-! Helper lemmas for C3: the then-branch scanning loop of `ParseIfExpr`
never terminates once the token stream is exhausted (`CurTok` stays
`tok_eof`, which is neither `ELSE` nor `FI`), so on `IF x THEN 1 FI` the
whole if-parse runs out of any amount of fuel. -/

/-- At the exhausted state, the then-branch loop of `ParseIfExpr` spins
forever: it fails for every fuel. -/
theorem ifLoopThen_eof_none (n : Nat) :
    (parserAt n).ifLoopThen ⟨.tok_eof, [], BinopPrecedence⟩ = none := by
  induction n with
  | zero => rfl
  | succ n ih =>
    cases n with
    | zero => rfl
    | succ m =>
      show (parserStep (parserAt (m + 1))).ifLoopThen _ = none
      simp only [parserStep, advance, reduceCtorEq, reduceIte]
      rw [show (parserAt (m + 1)).ParsePrimary ⟨.tok_eof, [], BinopPrecedence⟩
            = some (none, ⟨.tok_eof, [], BinopPrecedence⟩) from rfl]
      exact ih

/-- One loop iteration before exhaustion (`CurTok = FI`, empty stream)
also fails for every fuel — the loop advances past `FI` without checking
it. -/
theorem ifLoopThen_fi_none (n : Nat) :
    (parserAt n).ifLoopThen ⟨.tok_fi, [], BinopPrecedence⟩ = none := by
  induction n with
  | zero => rfl
  | succ n ih =>
    cases n with
    | zero => rfl
    | succ m =>
      show (parserStep (parserAt (m + 1))).ifLoopThen _ = none
      simp only [parserStep, advance, reduceCtorEq, reduceIte]
      rw [show (parserAt (m + 1)).ParsePrimary ⟨.tok_eof, [], BinopPrecedence⟩
            = some (none, ⟨.tok_eof, [], BinopPrecedence⟩) from rfl]
      exact ifLoopThen_eof_none (m + 1)

/-- Entering the then-branch loop at `CurTok = THEN` with `1 FI` remaining
(the situation after the condition of `IF x THEN 1 FI` has been parsed)
fails for every fuel. -/
theorem ifLoopThen_then_none (n : Nat) :
    (parserAt n).ifLoopThen
      ⟨.tok_then, [.tok_number "1", .tok_fi], BinopPrecedence⟩ = none := by
  induction n with
  | zero => rfl
  | succ n ih =>
    cases n with
    | zero => rfl
    | succ m =>
      show (parserStep (parserAt (m + 1))).ifLoopThen _ = none
      simp only [parserStep, advance, reduceCtorEq, reduceIte]
      rw [show (parserAt (m + 1)).ParsePrimary
              ⟨.tok_number "1", [.tok_fi], BinopPrecedence⟩
            = some (some (.numberExpr (strtodQ "1")),
                ⟨.tok_fi, [], BinopPrecedence⟩) from rfl]
      exact ifLoopThen_fi_none (m + 1)

/-- The if-parse of `IF x THEN 1 FI` diverges for every fuel. -/
theorem parseIfExpr_example_none (n : Nat) :
    (parserAt n).ParseIfExpr (mkPState
      [.tok_if, .tok_identifier "x", .tok_then, .tok_number "1", .tok_fi]
      BinopPrecedence) = none := by
  cases n with
  | zero => rfl
  | succ n =>
    cases n with
    | zero => rfl
    | succ m =>
      cases m with
      | zero => rfl
      | succ k =>
        show (parserStep (parserAt (k + 2))).ParseIfExpr _ = none
        simp only [parserStep, advance, mkPState, reduceCtorEq, reduceIte,
          show (parserAt (k + 2)).ParsePrimary
                ⟨.tok_identifier "x",
                 [.tok_then, .tok_number "1", .tok_fi], BinopPrecedence⟩
              = some (some (.variableExpr "x"),
                  ⟨.tok_then, [.tok_number "1", .tok_fi], BinopPrecedence⟩) from rfl,
          ifLoopThen_then_none]

/-- Claim C3 (the source does not do what the claim says): on the token
stream of `IF x THEN 1 FI`, `ParsePrimary` (hence `ParseIfExpr`) never
returns for any fuel: the branch-scanning loop spins forever after the
stream is exhausted, and no `If` node is ever built (the source AST has no
if/then/else variant at all). -/
theorem claim_C3_if_diverges (n : Nat) :
    ParsePrimary n (mkPState
      [.tok_if, .tok_identifier "x", .tok_then, .tok_number "1", .tok_fi]
      BinopPrecedence) = none := by
  cases n with
  | zero => rfl
  | succ n =>
    show (parserStep (parserAt n)).ParsePrimary _ = none
    simp only [parserStep]
    exact parseIfExpr_example_none n

/-- Claim C7 (the source does not do what the claim says, for `PRINT`):
`ParsePrintExpr` never consumes the `PRINT` keyword — it re-enters
`ParsePrimary` on the same state, so any parse whose lookahead is
`tok_print` recurses forever (fails for every fuel).  The `RETURN` path
does consume its keyword but parses only one *primary* and wraps the
(possibly null) result in a bare `ExprAST`, as the second conjunct
records on `RETURN 1 + 2`. -/
theorem claim_C7_print_return :
    (∀ (n : Nat) (s : PState), s.curTok = .tok_print → ParsePrimary n s = none)
  ∧ ParsePrimary 5 (mkPState
        [.tok_return, .tok_number "1", .charTok '+', .tok_number "2"]
        BinopPrecedence)
      = some (some (.baseExpr (some (.numberExpr (strtodQ "1")))),
          ⟨.charTok '+', [.tok_number "2"], BinopPrecedence⟩) := by
  constructor
  · intro n
    induction n using Nat.strong_induction_on with
    | _ n ih =>
      intro s h
      match n with
      | 0 => rfl
      | 1 =>
        obtain ⟨ct, tk, pr⟩ := s
        simp only [PState.curTok] at h
        subst h
        rfl
      | m + 2 =>
        obtain ⟨ct, tk, pr⟩ := s
        simp only [PState.curTok] at h
        subst h
        exact ih m (by omega) ⟨.tok_print, tk, pr⟩ rfl
  · rfl

/-- Witness for C7 at the concrete stream `PRINT 1`. -/
theorem claim_C7_print_return_witness :
    ParsePrimary 9 (mkPState [.tok_print, .tok_number "1"] BinopPrecedence) = none :=
  claim_C7_print_return.1 9 _ rfl

/-! Helper lemmas for the lexer claims C9 and C10. -/

/-- The whitespace-skipping loop only discards whitespace characters: the
pending characters before the loop are some all-whitespace prefix followed
by the pending characters after it. -/
theorem skipSpacesAux_decomp :
    ∀ inp : List Char,
      ∃ ws, (∀ c ∈ ws, isSpaceC c) ∧
        inp = ws ++ pendingOf ⟨(skipSpacesAux inp).1, (skipSpacesAux inp).2⟩ := by
  intro inp
  induction inp with
  | nil => exact ⟨[], by simp, rfl⟩
  | cons c r ih =>
    by_cases h : isSpaceC c
    · obtain ⟨ws, hws, heq⟩ := ih
      refine ⟨c :: ws, ?_, ?_⟩
      · intro x hx
        rcases List.mem_cons.mp hx with rfl | hx
        · exact h
        · exact hws x hx
      · simpa [skipSpacesAux, h] using heq
    · exact ⟨[], by simp, by simp [skipSpacesAux, h, pendingOf]⟩

theorem skipSpaces_decomp :
    ∀ (inp : List Char) (lc : Option Char),
      ∃ ws, (∀ c ∈ ws, isSpaceC c) ∧
        pendingOf ⟨lc, inp⟩ =
          ws ++ pendingOf ⟨(skipSpaces lc inp).1, (skipSpaces lc inp).2⟩ := by
  intro inp lc
  match lc with
  | none => exact ⟨[], by simp, rfl⟩
  | some c =>
    by_cases h : isSpaceC c
    · obtain ⟨ws, hws, heq⟩ := skipSpacesAux_decomp inp
      refine ⟨c :: ws, ?_, ?_⟩
      · intro x hx
        rcases List.mem_cons.mp hx with rfl | hx
        · exact h
        · exact hws x hx
      · show pendingOf ⟨some c, inp⟩ = _
        rw [show skipSpaces (some c) inp = skipSpacesAux inp by simp [skipSpaces, h]]
        simpa [pendingOf] using heq
    · exact ⟨[], by simp, by simp [skipSpaces, h, pendingOf]⟩

/-- An accumulation loop consumes exactly the characters it accumulates:
the input equals the run followed by the pending characters afterwards. -/
theorem scanRun_decomp (f : Char → Bool) :
    ∀ inp : List Char,
      inp = (scanRun f inp).1 ++
        pendingOf ⟨(scanRun f inp).2.1, (scanRun f inp).2.2⟩ := by
  intro inp
  induction inp with
  | nil => rfl
  | cons c r ih =>
    by_cases h : f c
    · simpa [scanRun, h] using ih
    · simp [scanRun, h, pendingOf]

/-- On a run of `f`-characters followed by a non-`f` boundary, an
accumulation loop returns exactly the run, with the boundary character (if
any) as the new pushback. -/
theorem scanRun_exact (f : Char → Bool) :
    ∀ (run rest : List Char), (∀ x ∈ run, f x = true) →
      (∀ x ∈ rest.head?, f x = false) →
      scanRun f (run ++ rest) = (run, rest.head?, rest.tail) := by
  intro run
  induction run with
  | nil =>
    intro rest _ hrest
    match rest with
    | [] => rfl
    | x :: r => simp [scanRun, hrest x (by simp)]
  | cons c run2 ih =>
    intro rest hrun hrest
    have hc : f c = true := hrun c (by simp)
    have h2 := ih rest (fun x hx => hrun x (by simp [hx])) hrest
    simp [scanRun, hc, List.append_eq, h2]

/-- The keyword-comparison chain never changes the text: whatever token it
classifies a string as, that token spells the same string. -/
theorem tokText_keywordOrIdent (str : String) :
    tokText (keywordOrIdent str) = str := by
  by_cases h1 : str = "FUNC"
  · simp [keywordOrIdent, h1, tokText]
  by_cases h2 : str = "RETURN"
  · simp [keywordOrIdent, h1, h2, tokText]
  by_cases h3 : str = "IF"
  · simp [keywordOrIdent, h1, h2, h3, tokText]
  by_cases h4 : str = "ELSE"
  · simp [keywordOrIdent, h1, h2, h3, h4, tokText]
  by_cases h5 : str = "THEN"
  · simp [keywordOrIdent, h1, h2, h3, h4, h5, tokText]
  by_cases h6 : str = "FI"
  · simp [keywordOrIdent, h1, h2, h3, h4, h5, h6, tokText]
  by_cases h7 : str = "DO"
  · simp [keywordOrIdent, h1, h2, h3, h4, h5, h6, h7, tokText]
  by_cases h8 : str = "WHILE"
  · simp [keywordOrIdent, h1, h2, h3, h4, h5, h6, h7, h8, tokText]
  by_cases h9 : str = "DONE"
  · simp [keywordOrIdent, h1, h2, h3, h4, h5, h6, h7, h8, h9, tokText]
  by_cases h10 : str = "CONTINUE"
  · simp [keywordOrIdent, h1, h2, h3, h4, h5, h6, h7, h8, h9, h10, tokText]
  by_cases h11 : str = "PRINT"
  · simp [keywordOrIdent, h1, h2, h3, h4, h5, h6, h7, h8, h9, h10, h11, tokText]
  by_cases h12 : str = "VAR"
  · simp [keywordOrIdent, h1, h2, h3, h4, h5, h6, h7, h8, h9, h10, h11, h12, tokText]
  by_cases h13 : str = ":="
  · simp [keywordOrIdent, h1, h2, h3, h4, h5, h6, h7, h8, h9, h10, h11, h12, h13, tokText]
  simp [keywordOrIdent, h1, h2, h3, h4, h5, h6, h7, h8, h9, h10, h11, h12, h13, tokText]

/-- The keyword-comparison chain never yields the end-of-input token. -/
theorem keywordOrIdent_ne_eof (str : String) :
    keywordOrIdent str ≠ .tok_eof := by
  by_cases h1 : str = "FUNC"
  · simp [keywordOrIdent, h1]
  by_cases h2 : str = "RETURN"
  · simp [keywordOrIdent, h1, h2]
  by_cases h3 : str = "IF"
  · simp [keywordOrIdent, h1, h2, h3]
  by_cases h4 : str = "ELSE"
  · simp [keywordOrIdent, h1, h2, h3, h4]
  by_cases h5 : str = "THEN"
  · simp [keywordOrIdent, h1, h2, h3, h4, h5]
  by_cases h6 : str = "FI"
  · simp [keywordOrIdent, h1, h2, h3, h4, h5, h6]
  by_cases h7 : str = "DO"
  · simp [keywordOrIdent, h1, h2, h3, h4, h5, h6, h7]
  by_cases h8 : str = "WHILE"
  · simp [keywordOrIdent, h1, h2, h3, h4, h5, h6, h7, h8]
  by_cases h9 : str = "DONE"
  · simp [keywordOrIdent, h1, h2, h3, h4, h5, h6, h7, h8, h9]
  by_cases h10 : str = "CONTINUE"
  · simp [keywordOrIdent, h1, h2, h3, h4, h5, h6, h7, h8, h9, h10]
  by_cases h11 : str = "PRINT"
  · simp [keywordOrIdent, h1, h2, h3, h4, h5, h6, h7, h8, h9, h10, h11]
  by_cases h12 : str = "VAR"
  · simp [keywordOrIdent, h1, h2, h3, h4, h5, h6, h7, h8, h9, h10, h11, h12]
  by_cases h13 : str = ":="
  · simp [keywordOrIdent, h1, h2, h3, h4, h5, h6, h7, h8, h9, h10, h11, h12, h13]
  simp [keywordOrIdent, h1, h2, h3, h4, h5, h6, h7, h8, h9, h10, h11, h12, h13]

/-- Every `getToken` call consumes exactly some whitespace plus the text
of the token it returns; the one look-ahead character past that text is
the new pushback (part of the new pending characters). -/
theorem getToken_decomp (s : LexState) :
    ∃ ws, (∀ c ∈ ws, isSpaceC c) ∧
      pendingOf s = ws ++ (tokText (getToken s).1).toList ++ pendingOf (getToken s).2 := by
  obtain ⟨lc, inp⟩ := s
  obtain ⟨ws, hws, heq⟩ := skipSpaces_decomp inp lc
  rcases hsk : skipSpaces lc inp with ⟨lc2, inp2⟩
  rw [hsk] at heq
  match lc2 with
  | none =>
    refine ⟨ws, hws, ?_⟩
    simp only [getToken, hsk, tokText]
    simpa [pendingOf] using heq
  | some c =>
    by_cases ha : isAlphaC c
    · rcases hsc : scanRun isAlnumC inp2 with ⟨a, lc3, rest⟩
      have hd : inp2 = a ++ pendingOf ⟨lc3, rest⟩ := by
        have h0 := scanRun_decomp isAlnumC inp2
        rw [hsc] at h0
        simpa using h0
      refine ⟨ws, hws, ?_⟩
      simp only [getToken, hsk, ha, if_pos, hsc]
      rw [tokText_keywordOrIdent, heq,
        show (String.mk (c :: a)).toList = c :: a from rfl]
      simp [pendingOf, hd]
    · by_cases hn : isNumC c
      · rcases hsc : scanRun isNumC inp2 with ⟨a, lc3, rest⟩
        have hd : inp2 = a ++ pendingOf ⟨lc3, rest⟩ := by
          have h0 := scanRun_decomp isNumC inp2
          rw [hsc] at h0
          simpa using h0
        refine ⟨ws, hws, ?_⟩
        simp only [getToken, hsk, ha, hn, if_pos, if_neg, Bool.false_eq_true,
          not_false_iff, hsc, tokText]
        rw [heq, show (String.mk (c :: a)).toList = c :: a from rfl]
        simp [pendingOf, hd]
      · refine ⟨ws, hws, ?_⟩
        simp only [getToken, hsk, ha, hn, if_neg, Bool.false_eq_true, not_false_iff]
        rw [heq]
        match inp2 with
        | [] => simp [pendingOf, getchar, tokText]
        | x :: r => simp [pendingOf, getchar, tokText]

/-- Once `getToken` has returned the end-of-input token, it returns it
forever, with the state unchanged. -/
theorem getToken_eof_stable (s s2 : LexState)
    (h : getToken s = (.tok_eof, s2)) : getToken s2 = (.tok_eof, s2) := by
  obtain ⟨lc, inp⟩ := s
  rcases hsk : skipSpaces lc inp with ⟨lc2, inp2⟩
  simp only [getToken, hsk] at h
  match lc2 with
  | none =>
    injection h with h1 h2
    subst h2
    rfl
  | some c =>
    exfalso
    by_cases ha : isAlphaC c
    · rcases hsc : scanRun isAlnumC inp2 with ⟨a, lc3, rest⟩
      simp only [ha, if_pos, hsc] at h
      injection h with h1 h2
      exact keywordOrIdent_ne_eof _ h1
    · by_cases hn : isNumC c
      · rcases hsc : scanRun isNumC inp2 with ⟨a, lc3, rest⟩
        simp only [ha, hn, if_pos, if_neg, Bool.false_eq_true, not_false_iff,
          hsc] at h
        injection h with h1 h2
        exact Tok.noConfusion h1
      · rcases hgc : getchar inp2 with ⟨lc3, rest⟩
        simp only [ha, hn, if_neg, Bool.false_eq_true, not_false_iff, hgc] at h
        injection h with h1 h2
        exact Tok.noConfusion h1

/-- A digit-or-dot character is not whitespace. -/
theorem isNumC_not_space {c : Char} (h : isNumC c = true) : isSpaceC c = false := by
  simp only [isNumC, isDigitC, Bool.or_eq_true, Bool.and_eq_true, decide_eq_true_eq,
    beq_iff_eq] at h
  rcases h with ⟨h1, h2⟩ | rfl
  · simp only [isSpaceC, Bool.or_eq_false_iff, beq_eq_false_iff_ne, ne_eq]
    omega
  · decide

/-- A digit-or-dot character is not alphabetic. -/
theorem isNumC_not_alpha {c : Char} (h : isNumC c = true) : isAlphaC c = false := by
  simp only [isNumC, isDigitC, Bool.or_eq_true, Bool.and_eq_true, decide_eq_true_eq,
    beq_iff_eq] at h
  rcases h with ⟨h1, h2⟩ | rfl
  · simp only [isAlphaC, Bool.or_eq_false_iff, Bool.and_eq_false_iff,
      decide_eq_false_iff_not, not_le]
    omega
  · decide

/-- Claim C9: (i) every `getToken` call consumes exactly some whitespace
followed by the text of the token it returns — in particular it never
reads past the single pushback character, which together with the input
position is the whole lexer state (`LexState`); (ii) once `getToken`
returns end-of-input it returns end-of-input forever, without changing
state. -/
theorem claim_C9_lexer_invariants :
    (∀ s : LexState, ∃ ws, (∀ c ∈ ws, isSpaceC c) ∧
        pendingOf s = ws ++ (tokText (getToken s).1).toList ++ pendingOf (getToken s).2)
  ∧ (∀ s s2 : LexState, getToken s = (.tok_eof, s2) → getToken s2 = (.tok_eof, s2)) :=
  ⟨getToken_decomp, getToken_eof_stable⟩

/-- Witness for C9: the decomposition at the state about to read `" 1+"`,
and end-of-input stability at the exhausted state. -/
theorem claim_C9_lexer_invariants_witness :
    (∃ ws, (∀ c ∈ ws, isSpaceC c) ∧
        pendingOf ⟨some ' ', ['1', '+']⟩ =
          ws ++ (tokText (getToken ⟨some ' ', ['1', '+']⟩).1).toList ++
            pendingOf (getToken ⟨some ' ', ['1', '+']⟩).2)
  ∧ getToken ⟨none, []⟩ = (.tok_eof, ⟨none, []⟩) :=
  ⟨claim_C9_lexer_invariants.1 ⟨some ' ', ['1', '+']⟩,
   claim_C9_lexer_invariants.2 ⟨none, []⟩ ⟨none, []⟩ rfl⟩

/-- Claim C10: on a maximal run of digit/dot characters (starting with a
digit or dot, ended by a non-digit/dot boundary), the lexer returns one
single `tok_number` token covering the whole run — it never signals any
error, even for malformed runs like `1.2.3` — and the boundary character
becomes the pushback.  The token's value is the best-effort `strtod`
conversion of the run (`strtodQ`); in particular `strtod("1.2.3")` is
`1.2 = 6/5`. -/
theorem claim_C10_number_runs (c : Char) (run rest : List Char)
    (hc : isNumC c = true)
    (hrun : ∀ x ∈ run, isNumC x = true)
    (hrest : ∀ x ∈ rest.head?, isNumC x = false) :
    getToken ⟨some c, run ++ rest⟩
      = (.tok_number (String.mk (c :: run)), ⟨rest.head?, rest.tail⟩)
  ∧ numValOf (.tok_number (String.mk (c :: run))) = strtodQ (String.mk (c :: run))
  ∧ strtodQ "1.2.3" = 6 / 5 := by
  refine ⟨?_, rfl, ?_⟩
  · have hsp : isSpaceC c = false := isNumC_not_space hc
    have hal : isAlphaC c = false := isNumC_not_alpha hc
    simp only [getToken, skipSpaces, hsp, Bool.false_eq_true, if_neg,
      not_false_iff, hal, hc, if_pos,
      scanRun_exact isNumC run rest hrun hrest]
  · norm_num [strtodQ, digitsVal,
      show "1.2.3".toList = ['1', '.', '2', '.', '3'] from rfl,
      show List.takeWhile isDigitC ['1', '.', '2', '.', '3'] = ['1'] from rfl,
      show List.dropWhile isDigitC ['1', '.', '2', '.', '3'] = ['.', '2', '.', '3'] from rfl,
      show List.takeWhile isDigitC ['2', '.', '3'] = ['2'] from rfl,
      show Char.toNat '1' = 49 from rfl,
      show Char.toNat '2' = 50 from rfl]

/-- Witness for C10 on the malformed run `1.2.3` followed by `)`. -/
theorem claim_C10_number_runs_witness :
    getToken ⟨some '1', ['.', '2', '.', '3', ')']⟩
      = (.tok_number "1.2.3", ⟨some ')', []⟩)
  ∧ numValOf (.tok_number "1.2.3") = strtodQ "1.2.3"
  ∧ strtodQ "1.2.3" = 6 / 5 :=
  claim_C10_number_runs '1' ['.', '2', '.', '3'] [')']
    (by decide) (by decide)
    (fun x hx => by
      simp only [List.head?, Option.mem_def, Option.some.injEq] at hx
      subst hx
      decide)

/-- Claim C6 (the source does not do what the claim says): parsing
`var x` yields a `VariableExprAST` built from the numeric token code `-4`
(`tok_identifier`) instead of a declaration named `"x"`, and leaves the
identifier token unconsumed. -/
theorem claim_C6_var_decl :
    ParsePrimary 3 (mkPState [.tok_var, .tok_identifier "x"] BinopPrecedence)
      = some (some (.variableExpr "-4"), ⟨.tok_identifier "x", [], BinopPrecedence⟩)
  ∧ ("-4" : String) ≠ "x" :=
  ⟨rfl, by decide⟩

/-! Helper development for C8: the only write the parser ever performs on
`BinopPrecedence` is the `std::map::operator[]` default-insertion of a
zero entry inside `GetTokPrecedence`; `ZeroExt` captures exactly that kind
of growth, and `effPrec` is the precedence actually read through
`operator[]` (absent keys read as `0`). -/

/-- `q` extends `p` by appended entries that all carry value `0`. -/
def ZeroExt (p q : List (Char × Int)) : Prop :=
  ∃ l, q = p ++ l ∧ ∀ x ∈ l, x.2 = 0

theorem ZeroExt.rfl (p : List (Char × Int)) : ZeroExt p p :=
  ⟨[], by simp, by simp⟩

theorem ZeroExt.trans {p q r : List (Char × Int)}
    (h1 : ZeroExt p q) (h2 : ZeroExt q r) : ZeroExt p r := by
  obtain ⟨l1, rfl, hl1⟩ := h1
  obtain ⟨l2, rfl, hl2⟩ := h2
  refine ⟨l1 ++ l2, by simp, ?_⟩
  intro x hx
  rcases List.mem_append.mp hx with h | h
  · exact hl1 x h
  · exact hl2 x h

/-- The effective precedence of a character: the value `operator[]` would
read, with absent keys giving the default `0`. -/
def effPrec (p : List (Char × Int)) (c : Char) : Int := (p.lookup c).getD 0

theorem lookup_append_none {p l : List (Char × Int)} {c : Char}
    (h : p.lookup c = none) : (p ++ l).lookup c = l.lookup c := by
  induction p with
  | nil => simp
  | cons kv p2 ih =>
    obtain ⟨k, v⟩ := kv
    by_cases hk : c == k
    · simp only [List.lookup, hk, reduceCtorEq] at h
    · have hk2 : (c == k) = false := by simpa using hk
      simp only [List.cons_append, List.lookup, hk2] at h ⊢
      exact ih h

theorem lookup_append_some {p l : List (Char × Int)} {c : Char} {v : Int}
    (h : p.lookup c = some v) : (p ++ l).lookup c = some v := by
  induction p with
  | nil => simp at h
  | cons kv p2 ih =>
    obtain ⟨k, w⟩ := kv
    by_cases hk : c == k
    · simp only [List.cons_append, List.lookup, hk] at h ⊢
      exact h
    · have hk2 : (c == k) = false := by simpa using hk
      simp only [List.cons_append, List.lookup, hk2] at h ⊢
      exact ih h

theorem lookup_all_zero {l : List (Char × Int)} (h : ∀ x ∈ l, x.2 = 0)
    (c : Char) : (l.lookup c).getD 0 = 0 := by
  induction l with
  | nil => rfl
  | cons kv r ih =>
    obtain ⟨k, v⟩ := kv
    by_cases hk : c == k
    · have hv : v = 0 := h (k, v) (by simp)
      simp only [List.lookup, hk, hv, Option.getD_some]
    · have hk2 : (c == k) = false := by simpa using hk
      simp only [List.lookup, hk2]
      exact ih (fun x hx => h x (by simp [hx]))

/-- Zero-valued extension never changes the effective precedence of any
character. -/
theorem ZeroExt.effPrec_eq {p q : List (Char × Int)} (h : ZeroExt p q)
    (c : Char) : effPrec q c = effPrec p c := by
  obtain ⟨l, rfl, hl⟩ := h
  unfold effPrec
  cases hp : p.lookup c
  · rw [lookup_append_none hp, lookup_all_zero hl c]
    rfl
  · rw [lookup_append_some hp]

theorem advance_prec (s : PState) :
    (advance s).binopPrecedence = s.binopPrecedence := by
  obtain ⟨ct, toks, p⟩ := s
  cases toks <;> rfl

theorem mapIndex_zeroExt (p : List (Char × Int)) (c : Char) :
    ZeroExt p (mapIndex p c).2 := by
  unfold mapIndex
  cases h : p.lookup c
  · exact ⟨[(c, 0)], by simp [h], by simp⟩
  · exact ⟨[], by simp [h], by simp⟩

theorem GetTokPrecedence_zeroExt (s : PState) :
    ZeroExt s.binopPrecedence (GetTokPrecedence s).2.binopPrecedence := by
  by_cases h : tokCode s.curTok < 0 ∨ 127 < tokCode s.curTok
  · simp only [GetTokPrecedence, h, if_pos]
    exact ZeroExt.rfl _
  · rcases hm : mapIndex s.binopPrecedence (Char.ofNat (tokCode s.curTok).toNat)
      with ⟨v, p2⟩
    have hz := mapIndex_zeroExt s.binopPrecedence (Char.ofNat (tokCode s.curTok).toNat)
    rw [hm] at hz
    simp only [GetTokPrecedence, h, if_neg, not_false_iff, hm]
    simpa using hz

/-- Result predicate: a parse function's returned state (when it returns)
only zero-extends the precedence table of its input state. -/
def PresR {α : Type} (s : PState) : Option (α × PState) → Prop
  | none => True
  | some (_, s2) => ZeroExt s.binopPrecedence s2.binopPrecedence

/-- The same predicate for the loop helpers returning a bare state. -/
def PresS (s : PState) : Option PState → Prop
  | none => True
  | some s2 => ZeroExt s.binopPrecedence s2.binopPrecedence

theorem PresR.zeroExt_r {α : Type} {s : PState} {x : Option (α × PState)}
    {r : α} {s1 : PState} (h : PresR s x) (he : x = some (r, s1)) :
    ZeroExt s.binopPrecedence s1.binopPrecedence := by
  rw [he] at h
  exact h

theorem PresS.zeroExt_s {s : PState} {x : Option PState} {s1 : PState}
    (h : PresS s x) (he : x = some s1) :
    ZeroExt s.binopPrecedence s1.binopPrecedence := by
  rw [he] at h
  exact h

theorem presR_weaken {α : Type} {s s1 : PState}
    (h0 : ZeroExt s.binopPrecedence s1.binopPrecedence)
    {x : Option (α × PState)} (h : PresR s1 x) : PresR s x := by
  match x with
  | none => trivial
  | some (a, s2) => exact ZeroExt.trans h0 h

theorem presS_weaken {s s1 : PState}
    (h0 : ZeroExt s.binopPrecedence s1.binopPrecedence)
    {x : Option PState} (h : PresS s1 x) : PresS s x := by
  match x with
  | none => trivial
  | some s2 => exact ZeroExt.trans h0 h

theorem zeroExt_of_advance {s : PState} {q : List (Char × Int)}
    (h : ZeroExt (advance s).binopPrecedence q) :
    ZeroExt s.binopPrecedence q := by
  rw [advance_prec] at h
  exact h

theorem zeroExt_to_advance {s2 : PState} {q : List (Char × Int)}
    (h : ZeroExt q s2.binopPrecedence) :
    ZeroExt q (advance s2).binopPrecedence := by
  rw [advance_prec]
  exact h

/-- The preservation predicate for a whole level of the parser knot. -/
def PresAll (P : ParserFns) : Prop :=
  (∀ s, PresR s (P.ParsePrimary s)) ∧
  (∀ s, PresR s (P.ParseExpression s)) ∧
  (∀ pr lhs s, PresR s (P.ParseBinOpRHS pr lhs s)) ∧
  (∀ s, PresR s (P.ParseParenExpr s)) ∧
  (∀ s, PresR s (P.ParseIdentifierExpr s)) ∧
  (∀ acc s, PresR s (P.argsLoop acc s)) ∧
  (∀ s, PresR s (P.ParseIfExpr s)) ∧
  (∀ s, PresS s (P.ifLoopThen s)) ∧
  (∀ s, PresS s (P.skipToFi s)) ∧
  (∀ s, PresS s (P.ifLoopElse s)) ∧
  (∀ s, PresR s (P.ParseWhileExpr s)) ∧
  (∀ s, PresS s (P.whileLoopBody s)) ∧
  (∀ s, PresS s (P.whileSkipDone s)) ∧
  (∀ s, PresR s (P.ParseReturnExpr s)) ∧
  (∀ s, PresR s (P.ParsePrintExpr s))

theorem presAll_bot : PresAll parserBot := by
  refine ⟨?_, ?_, ?_, ?_, ?_, ?_, ?_, ?_, ?_, ?_, ?_, ?_, ?_, ?_, ?_⟩ <;>
    intros <;> trivial

theorem step_ParsePrimary (p : ParserFns)
    (hIdent : ∀ s, PresR s (p.ParseIdentifierExpr s))
    (hParen : ∀ s, PresR s (p.ParseParenExpr s))
    (hIf : ∀ s, PresR s (p.ParseIfExpr s))
    (hWhile : ∀ s, PresR s (p.ParseWhileExpr s))
    (hRet : ∀ s, PresR s (p.ParseReturnExpr s))
    (hPrint : ∀ s, PresR s (p.ParsePrintExpr s)) :
    ∀ s, PresR s ((parserStep p).ParsePrimary s) := by
  intro s
  simp only [parserStep]
  split <;>
    first
    | exact hIdent _
    | exact hParen _
    | exact hIf _
    | exact hWhile _
    | exact hRet _
    | exact hPrint _
    | exact zeroExt_to_advance (ZeroExt.rfl _)
    | exact ZeroExt.rfl _

theorem step_ParseExpression (p : ParserFns)
    (hPrim : ∀ s, PresR s (p.ParsePrimary s))
    (hBin : ∀ pr lhs s, PresR s (p.ParseBinOpRHS pr lhs s)) :
    ∀ s, PresR s ((parserStep p).ParseExpression s) := by
  intro s
  simp only [parserStep]
  split
  · trivial
  · next s1 heq => exact (hPrim s).zeroExt_r heq
  · next lhs s1 heq =>
    exact presR_weaken ((hPrim s).zeroExt_r heq) (hBin 0 lhs s1)

theorem step_ParseBinOpRHS (p : ParserFns)
    (hPrim : ∀ s, PresR s (p.ParsePrimary s))
    (hBin : ∀ pr lhs s, PresR s (p.ParseBinOpRHS pr lhs s)) :
    ∀ (pr : Int) (lhs : ExprAST) (s : PState),
      PresR s ((parserStep p).ParseBinOpRHS pr lhs s) := by
  intro pr lhs s
  rcases hg : GetTokPrecedence s with ⟨tokPrec, s1⟩
  have hz1 : ZeroExt s.binopPrecedence s1.binopPrecedence := by
    have h0 := GetTokPrecedence_zeroExt s
    rw [hg] at h0
    exact h0
  simp only [parserStep, hg]
  split
  · exact hz1
  · split
    · trivial
    · next s3 heq =>
      exact ZeroExt.trans (zeroExt_to_advance hz1) ((hPrim _).zeroExt_r heq)
    · next rhs s3 heq =>
      have hz3 : ZeroExt s.binopPrecedence s3.binopPrecedence :=
        ZeroExt.trans (zeroExt_to_advance hz1) ((hPrim _).zeroExt_r heq)
      rcases hg2 : GetTokPrecedence s3 with ⟨nextPrec, s4⟩
      have hz4 : ZeroExt s.binopPrecedence s4.binopPrecedence := by
        have h0 := GetTokPrecedence_zeroExt s3
        rw [hg2] at h0
        exact ZeroExt.trans hz3 h0
      simp only [hg2]
      split
      · split
        · trivial
        · next s5 heq2 =>
          exact ZeroExt.trans hz4 ((hBin _ _ _).zeroExt_r heq2)
        · next rhs2 s5 heq2 =>
          exact presR_weaken
            (ZeroExt.trans hz4 ((hBin _ _ _).zeroExt_r heq2)) (hBin _ _ _)
      · exact presR_weaken hz4 (hBin _ _ _)

theorem step_ParseParenExpr (p : ParserFns)
    (hExpr : ∀ s, PresR s (p.ParseExpression s)) :
    ∀ s, PresR s ((parserStep p).ParseParenExpr s) := by
  intro s
  simp only [parserStep]
  split
  · trivial
  · next s2 heq =>
    exact zeroExt_of_advance ((hExpr _).zeroExt_r heq)
  · next v s2 heq =>
    have h2 : ZeroExt s.binopPrecedence s2.binopPrecedence :=
      zeroExt_of_advance ((hExpr _).zeroExt_r heq)
    split
    · exact zeroExt_to_advance h2
    · exact h2

theorem step_ParseIdentifierExpr (p : ParserFns)
    (hArgs : ∀ acc s, PresR s (p.argsLoop acc s)) :
    ∀ s, PresR s ((parserStep p).ParseIdentifierExpr s) := by
  intro s
  simp only [parserStep]
  split
  · exact zeroExt_to_advance (ZeroExt.rfl _)
  · split
    · trivial
    · next s3 heq =>
      by_cases hc : (advance (advance s)).curTok = Tok.charTok ')'
      · rw [if_pos hc] at heq
        simp at heq
      · rw [if_neg hc] at heq
        exact zeroExt_of_advance (zeroExt_of_advance ((hArgs _ _).zeroExt_r heq))
    · next args s3 heq =>
      show ZeroExt s.binopPrecedence (advance s3).binopPrecedence
      apply zeroExt_to_advance
      by_cases hc : (advance (advance s)).curTok = Tok.charTok ')'
      · rw [if_pos hc] at heq
        injection heq with h1
        injection h1 with h2 h3
        rw [← h3]
        exact zeroExt_to_advance (zeroExt_to_advance (ZeroExt.rfl _))
      · rw [if_neg hc] at heq
        exact zeroExt_of_advance (zeroExt_of_advance ((hArgs _ _).zeroExt_r heq))

theorem step_argsLoop (p : ParserFns)
    (hExpr : ∀ s, PresR s (p.ParseExpression s))
    (hArgs : ∀ acc s, PresR s (p.argsLoop acc s)) :
    ∀ acc s, PresR s ((parserStep p).argsLoop acc s) := by
  intro acc s
  simp only [parserStep]
  split
  · trivial
  · next s1 heq => exact (hExpr s).zeroExt_r heq
  · next arg s1 heq =>
    have hz1 : ZeroExt s.binopPrecedence s1.binopPrecedence :=
      (hExpr s).zeroExt_r heq
    split
    · exact hz1
    · split
      · exact presR_weaken (zeroExt_to_advance hz1) (hArgs _ _)
      · exact hz1

theorem step_ParseIfExpr (p : ParserFns)
    (hPrim : ∀ s, PresR s (p.ParsePrimary s))
    (hThen : ∀ s, PresS s (p.ifLoopThen s))
    (hElse : ∀ s, PresS s (p.ifLoopElse s)) :
    ∀ s, PresR s ((parserStep p).ParseIfExpr s) := by
  intro s
  simp only [parserStep]
  split
  · trivial
  · next cond s2 heq =>
    have hz : ZeroExt s.binopPrecedence s2.binopPrecedence :=
      zeroExt_of_advance ((hPrim _).zeroExt_r heq)
    split
    · trivial
    · next s3 heq2 =>
      exact ZeroExt.trans hz ((hThen s2).zeroExt_s heq2)
  · next s2 heq =>
    have hz : ZeroExt s.binopPrecedence s2.binopPrecedence :=
      zeroExt_of_advance ((hPrim _).zeroExt_r heq)
    split
    · trivial
    · next s3 heq2 =>
      exact ZeroExt.trans hz ((hElse s2).zeroExt_s heq2)

theorem step_ifLoopThen (p : ParserFns)
    (hPrim : ∀ s, PresR s (p.ParsePrimary s))
    (hThen : ∀ s, PresS s (p.ifLoopThen s))
    (hFi : ∀ s, PresS s (p.skipToFi s)) :
    ∀ s, PresS s ((parserStep p).ifLoopThen s) := by
  intro s
  simp only [parserStep]
  split
  · exact presS_weaken (zeroExt_to_advance (ZeroExt.rfl _)) (hFi _)
  · split
    · trivial
    · next r s3 heq =>
      by_cases hc : (advance s).curTok = Tok.tok_then
      · rw [if_pos hc] at heq
        exact presS_weaken
          (zeroExt_of_advance (zeroExt_of_advance ((hPrim _).zeroExt_r heq)))
          (hThen _)
      · rw [if_neg hc] at heq
        exact presS_weaken
          (zeroExt_of_advance ((hPrim _).zeroExt_r heq)) (hThen _)

theorem step_skipToFi (p : ParserFns)
    (hFi : ∀ s, PresS s (p.skipToFi s)) :
    ∀ s, PresS s ((parserStep p).skipToFi s) := by
  intro s
  simp only [parserStep]
  split
  · exact ZeroExt.rfl _
  · exact presS_weaken (zeroExt_to_advance (ZeroExt.rfl _)) (hFi _)

theorem step_ifLoopElse (p : ParserFns)
    (hPrim : ∀ s, PresR s (p.ParsePrimary s))
    (hElse : ∀ s, PresS s (p.ifLoopElse s)) :
    ∀ s, PresS s ((parserStep p).ifLoopElse s) := by
  intro s
  simp only [parserStep]
  split
  · trivial
  · next s3 heq =>
    have hz : ZeroExt s.binopPrecedence s3.binopPrecedence := by
      by_cases hc : (advance s).curTok = Tok.tok_else
      · rw [if_pos hc] at heq
        rcases hpp : p.ParsePrimary (advance (advance s)) with _ | ⟨r, s2⟩
        · rw [hpp] at heq
          simp at heq
        · rw [hpp] at heq
          simp only [Option.some.injEq] at heq
          rw [← heq]
          exact zeroExt_of_advance (zeroExt_of_advance ((hPrim _).zeroExt_r hpp))
      · rw [if_neg hc] at heq
        injection heq with h1
        rw [← h1]
        exact zeroExt_to_advance (ZeroExt.rfl _)
    split
    · exact hz
    · exact presS_weaken hz (hElse _)

theorem step_ParseWhileExpr (p : ParserFns)
    (hPrim : ∀ s, PresR s (p.ParsePrimary s))
    (hBody : ∀ s, PresS s (p.whileLoopBody s))
    (hDone : ∀ s, PresS s (p.whileSkipDone s)) :
    ∀ s, PresR s ((parserStep p).ParseWhileExpr s) := by
  intro s
  simp only [parserStep]
  split
  · trivial
  · next cond s2 heq =>
    have hz : ZeroExt s.binopPrecedence s2.binopPrecedence :=
      zeroExt_of_advance ((hPrim _).zeroExt_r heq)
    split
    · trivial
    · next s3 heq2 =>
      exact ZeroExt.trans hz ((hBody s2).zeroExt_s heq2)
  · next s2 heq =>
    have hz : ZeroExt s.binopPrecedence s2.binopPrecedence :=
      zeroExt_of_advance ((hPrim _).zeroExt_r heq)
    split
    · trivial
    · next s3 heq2 =>
      exact ZeroExt.trans hz ((hDone s2).zeroExt_s heq2)

theorem step_whileLoopBody (p : ParserFns)
    (hPrim : ∀ s, PresR s (p.ParsePrimary s))
    (hBody : ∀ s, PresS s (p.whileLoopBody s)) :
    ∀ s, PresS s ((parserStep p).whileLoopBody s) := by
  intro s
  simp only [parserStep]
  split
  · trivial
  · next s3 heq =>
    have hz : ZeroExt s.binopPrecedence s3.binopPrecedence := by
      by_cases hc : (advance s).curTok = Tok.tok_do
      · rw [if_pos hc] at heq
        rcases hpp : p.ParsePrimary (advance (advance (advance s))) with _ | ⟨r, s2⟩
        · rw [hpp] at heq
          simp at heq
        · rw [hpp] at heq
          simp only [Option.some.injEq] at heq
          rw [← heq]
          exact zeroExt_of_advance (zeroExt_of_advance
            (zeroExt_of_advance ((hPrim _).zeroExt_r hpp)))
      · rw [if_neg hc] at heq
        injection heq with h1
        rw [← h1]
        exact zeroExt_to_advance (ZeroExt.rfl _)
    split
    · exact hz
    · exact presS_weaken hz (hBody _)

theorem step_whileSkipDone (p : ParserFns)
    (hDone : ∀ s, PresS s (p.whileSkipDone s)) :
    ∀ s, PresS s ((parserStep p).whileSkipDone s) := by
  intro s
  simp only [parserStep]
  split
  · exact zeroExt_to_advance (ZeroExt.rfl _)
  · exact presS_weaken (zeroExt_to_advance (ZeroExt.rfl _)) (hDone _)

theorem step_ParseReturnExpr (p : ParserFns)
    (hPrim : ∀ s, PresR s (p.ParsePrimary s)) :
    ∀ s, PresR s ((parserStep p).ParseReturnExpr s) := by
  intro s
  simp only [parserStep]
  split
  · trivial
  · next r s2 heq =>
    exact zeroExt_of_advance ((hPrim _).zeroExt_r heq)

theorem step_ParsePrintExpr (p : ParserFns)
    (hPrim : ∀ s, PresR s (p.ParsePrimary s)) :
    ∀ s, PresR s ((parserStep p).ParsePrintExpr s) := by
  intro s
  simp only [parserStep]
  exact hPrim s

theorem presAll_step {p : ParserFns} (hp : PresAll p) : PresAll (parserStep p) := by
  obtain ⟨h1, h2, h3, h4, h5, h6, h7, h8, h9, h10, h11, h12, h13, h14, h15⟩ := hp
  exact ⟨step_ParsePrimary p h5 h4 h7 h11 h14 h15,
         step_ParseExpression p h1 h3,
         step_ParseBinOpRHS p h1 h3,
         step_ParseParenExpr p h2,
         step_ParseIdentifierExpr p h6,
         step_argsLoop p h2 h6,
         step_ParseIfExpr p h1 h8 h10,
         step_ifLoopThen p h1 h8 h9,
         step_skipToFi p h9,
         step_ifLoopElse p h1 h10,
         step_ParseWhileExpr p h1 h12 h13,
         step_whileLoopBody p h1 h12,
         step_whileSkipDone p h13,
         step_ParseReturnExpr p h1,
         step_ParsePrintExpr p h1⟩

/-- At every fuel level, every parser function only zero-extends the
precedence table. -/
theorem presAll_parserAt (n : Nat) : PresAll (parserAt n) := by
  induction n with
  | zero => exact presAll_bot
  | succ n ih => exact presAll_step ih

/-- The parameter-name loop of `ParsePrototype` only advances tokens; it
leaves the precedence table exactly unchanged. -/
theorem protoArgsLoop_prec :
    ∀ (n : Nat) (acc : List String) (s : PState) (r : List String) (s2 : PState),
      protoArgsLoop n acc s = some (r, s2) →
        s2.binopPrecedence = s.binopPrecedence := by
  intro n
  induction n with
  | zero =>
    intro acc s r s2 h
    simp [protoArgsLoop] at h
  | succ n ih =>
    intro acc s r s2 h
    simp only [protoArgsLoop] at h
    split at h
    · have := ih _ _ _ _ h
      rw [this, advance_prec]
    · injection h with h1
      injection h1 with h2 h3
      rw [← h3, advance_prec]

/-- `ParsePrototype` never touches the precedence table at all. -/
theorem ParsePrototype_prec (n : Nat) (s : PState) (r : Option PrototypeAST)
    (s2 : PState) (h : ParsePrototype n s = some (r, s2)) :
    s2.binopPrecedence = s.binopPrecedence := by
  simp only [ParsePrototype] at h
  split at h
  · split at h
    · split at h
      · simp at h
      · next argNames s3 heq =>
        split at h
        · injection h with h1
          injection h1 with h2 h3
          rw [← h3, advance_prec, protoArgsLoop_prec _ _ _ _ _ heq, advance_prec]
        · injection h with h1
          injection h1 with h2 h3
          rw [← h3, protoArgsLoop_prec _ _ _ _ _ heq, advance_prec]
    · injection h with h1
      injection h1 with h2 h3
      rw [← h3, advance_prec]
  · injection h with h1
    injection h1 with h2 h3
    rw [← h3]

/-- Claim C8 (amended): no parse operation changes the *effective*
precedence mapping — the value `operator[]` reads for any character, with
absent keys read as `0` — although the successful-lookup side effect of
`std::map::operator[]` may grow the key set by zero-valued entries (see
the counterexample). -/
theorem claim_C8_precedence_frame (n : Nat) (s : PState) :
    (∀ r s2, ParseExpression n s = some (r, s2) →
        ∀ c, effPrec s2.binopPrecedence c = effPrec s.binopPrecedence c)
  ∧ (∀ r s2, ParseTopLevelExpr n s = some (r, s2) →
        ∀ c, effPrec s2.binopPrecedence c = effPrec s.binopPrecedence c)
  ∧ (∀ r s2, ParseDefinition n s = some (r, s2) →
        ∀ c, effPrec s2.binopPrecedence c = effPrec s.binopPrecedence c) := by
  have hexpr : ∀ r s2, ParseExpression n s = some (r, s2) →
      ∀ c, effPrec s2.binopPrecedence c = effPrec s.binopPrecedence c := by
    intro r s2 h c
    exact (((presAll_parserAt n).2.1 s).zeroExt_r h).effPrec_eq c
  refine ⟨hexpr, ?_, ?_⟩
  · intro r s2 h c
    simp only [ParseTopLevelExpr] at h
    split at h
    · simp at h
    · next s1 heq =>
      injection h with h1
      injection h1 with h2 h3
      subst h3
      exact hexpr _ _ heq c
    · next e s1 heq =>
      injection h with h1
      injection h1 with h2 h3
      subst h3
      exact hexpr _ _ heq c
  · intro r s2 h c
    simp only [ParseDefinition] at h
    split at h
    · simp at h
    · next s1 heq =>
      injection h with h1
      injection h1 with h2 h3
      subst h3
      rw [ParsePrototype_prec _ _ _ _ heq, advance_prec]
    · next proto s1 heq =>
      have hp1 : s1.binopPrecedence = s.binopPrecedence := by
        rw [ParsePrototype_prec _ _ _ _ heq, advance_prec]
      split at h
      · simp at h
      · next s3 heq2 =>
        injection h with h1
        injection h1 with h2 h3
        subst h3
        have := (((presAll_parserAt n).2.1 s1).zeroExt_r heq2).effPrec_eq c
        rw [this, hp1]
      · next body s3 heq2 =>
        injection h with h1
        injection h1 with h2 h3
        subst h3
        have := (((presAll_parserAt n).2.1 s1).zeroExt_r heq2).effPrec_eq c
        rw [this, hp1]

/-- Witness for the amended C8, at the stream `1 ,` whose parse
default-inserts the zero entry for `','`. -/
theorem claim_C8_precedence_frame_witness :
    effPrec ((⟨.charTok ',', [], BinopPrecedence ++ [(',', 0)]⟩ : PState)).binopPrecedence ',' =
      effPrec ((mkPState [.tok_number "1", .charTok ','] BinopPrecedence)).binopPrecedence ',' :=
  (claim_C8_precedence_frame 5
      (mkPState [.tok_number "1", .charTok ','] BinopPrecedence)).1
    (some (.numberExpr (strtodQ "1")))
    ⟨.charTok ',', [], BinopPrecedence ++ [(',', 0)]⟩ rfl ','

/-- Counterexample to C8 as stated: parsing the expression `1 ,` (an
expression followed by a `','`, as happens inside every argument list)
returns with the precedence map's key set grown by the zero entry
`(',', 0)` — the map after the operation does not equal the map before. -/
theorem claim_C8_precedence_frame_cex :
    ParseExpression 5 (mkPState [.tok_number "1", .charTok ','] BinopPrecedence)
      = some (some (.numberExpr (strtodQ "1")),
          ⟨.charTok ',', [], BinopPrecedence ++ [(',', 0)]⟩)
  ∧ BinopPrecedence ++ [(',', 0)] ≠ BinopPrecedence :=
  ⟨rfl, by decide⟩

end VSL
